import Mathlib

/-!
Verification development for the LibCST fragment: the type-comment
conversion codemod (`convert_type_comments.py`), the round-trip law of the
parse/render pair, and the construction-time validation of parameter
collections.

The codemod source is embedded directly; the external parser, the
type-comment mini-grammar and the node-model validation code are not part
of this fragment and are modelled from the specification where a claim
needs them (each such definition is marked `Modelled from the spec:`).
-/

set_option autoImplicit false

namespace RoundTrip

/-- Modelled from the spec: the concrete syntax tree of a parsed line of
program text.  The parser itself is an external collaborator of this
fragment (only its fuzz tests are present), so the tree is modelled from
the spec's data-model invariant: a node stores its exact source
characters (semantic and formatting children concatenated in order
reproduce the source text).  A line stores its content characters and
whether a newline terminator followed. -/
structure Line where
  content : List Char
  terminated : Bool
deriving DecidableEq, Repr

/-- Modelled from the spec: parse-as-module.  Splits the raw text into
line nodes, each carrying its exact content and terminator. -/
def parseModule : List Char → List Line
  | [] => []
  | c :: cs =>
    if c = '\n' then ⟨[], true⟩ :: parseModule cs
    else
      match parseModule cs with
      | [] => [⟨[c], false⟩]
      | l :: rest => ⟨c :: l.content, l.terminated⟩ :: rest

/-- Code generation for a single line node: content followed by the
terminator, exactly the characters the node was derived from. -/
def renderLine (l : Line) : List Char :=
  l.content ++ (if l.terminated then ['\n'] else [])

/-- Code generation for a module: concatenation of its line nodes. -/
def renderModule (m : List Line) : List Char :=
  (m.map renderLine).flatten

/-- Modelled from the spec: parse-as-statement, which either returns a
single statement node or fails with a syntax error (`none`). -/
def parseStatement (text : List Char) : Option Line :=
  match parseModule text with
  | [l] => some l
  | _ => none

/-- Modelled from the spec: parse-as-expression; an expression holds its
raw characters and fails on embedded newlines. -/
def parseExpression (text : List Char) : Option Line :=
  if text.contains '\n' then none else some ⟨text, false⟩

end RoundTrip

namespace NodeModel

/-- Modelled from the spec: a single parameter node of the parameter
collection.  The node-model implementation is not part of this fragment
(only its tests are), so the fields a parameter carries are taken from the
spec's data model: a name, an optional default value, and a star prefix
(none, single, or double). -/
structure Param where
  name : String
  default : Option String
  star : String
deriving DecidableEq, Repr

/-- Modelled from the spec: the parameter collection holding plain
positional parameters and defaulted positional parameters (the two
sequences the claim is about). -/
structure Parameters where
  params : List Param
  defaultParams : List Param
deriving DecidableEq, Repr

/-- Modelled from the spec: the construction-time validation of a
parameter collection.  The checks are pure functions of the node's own
fields; the error strings are the ones the repository's tests assert
(`test_lambda.py`): plain positional parameters must not carry a default,
defaulted positional parameters must carry one. -/
def validateParameters (params defaultParams : List Param) : Except String Unit :=
  if params.any (fun p => p.default.isSome) then
    Except.error "Cannot have defaults for params"
  else if defaultParams.any (fun p => p.default.isNone) then
    Except.error "Must have defaults for default_params"
  else
    Except.ok ()

/-- Modelled from the spec: constructing a parameter collection runs the
validation first and only yields a usable node when it passes, so an
invalid collection fails immediately at construction time. -/
def Parameters.construct (params defaultParams : List Param) :
    Except String Parameters :=
  match validateParameters params defaultParams with
  | Except.error e => Except.error e
  | Except.ok _ => Except.ok ⟨params, defaultParams⟩

end NodeModel

namespace CTC

/-- The `ast.expr` tree a decoded type-comment payload produces.
`atom` covers every expression that is neither a tuple nor the `...`
constant and carries the text `ast.unparse` would print for it. -/
inductive TyExpr where
  | atom (unparsed : String)
  | ellipsisLit
  | tup (elts : List TyExpr)

mutual

/-- `ast.unparse` on a decoded type expression (tuples print
parenthesized, a one-element tuple with a trailing comma). -/
def unparseTy : TyExpr → String
  | TyExpr.atom s => s
  | TyExpr.ellipsisLit => "..."
  | TyExpr.tup [] => "()"
  | TyExpr.tup [e] => "(" ++ unparseTy e ++ ",)"
  | TyExpr.tup (e :: e' :: es) =>
      "(" ++ String.intercalate ", " (unparseTyList (e :: e' :: es)) ++ ")"

/-- `ast.unparse` mapped over a list of type expressions. -/
def unparseTyList : List TyExpr → List String
  | [] => []
  | t :: ts => unparseTy t :: unparseTyList ts

end

/-- The fragment of `cst.BaseExpression` the codemod inspects: names,
string literals, numbers and tuples.  `unpack_target` only distinguishes
`cst.Tuple` from everything else, and every other claim-relevant leaf is
one of these. -/
inductive CExpr where
  | name (value : String)
  | simpleString (value : String)
  | num (value : String)
  | tup (elements : List CExpr)

/-- `cst.Annotation`; the wrapped expression field. -/
structure CAnn where
  expr : CExpr

/-- Modelled from the spec: the fixed set of always-available built-in
identifier names.  In the source this is `set(dir(builtins))`, which is
environment-dependent; the spec directs treating it as an explicit fixed
list, given here with representative members. -/
def builtinNames : List String :=
  ["bool", "bytearray", "bytes", "complex", "dict", "float", "frozenset",
   "int", "list", "object", "set", "slice", "str", "tuple", "type", "range",
   "memoryview", "None", "True", "False", "Ellipsis", "NotImplemented"]

/-- `_is_builtin`: membership in the builtins set. -/
def isBuiltin (ann : String) : Bool :=
  builtinNames.contains ann

/-- `_convert_annotation`: builtins become bare names, everything else a
quoted string literal. -/
def convertAnn (raw : String) : CAnn :=
  if isBuiltin raw then ⟨CExpr.name raw⟩
  else ⟨CExpr.simpleString ("\"" ++ raw ++ "\"")⟩

/-- The whitespace characters `str.strip()` removes around a comment
payload. -/
def pyIsSpace (c : Char) : Bool :=
  c == ' ' || c == '\t' || c == '\n' || c == '\r'

/-- Python's `str.strip()`, over the character list of the text (the
built-in string functions are opaque to the kernel, so the comment text
is processed as its character list throughout). -/
def pyStripChars (l : List Char) : List Char :=
  ((l.dropWhile pyIsSpace).reverse.dropWhile pyIsSpace).reverse

/-- Splitting on single spaces, keeping empty pieces (the raw separator
pass of `str.split()`). -/
def splitOnSpace : List Char → List (List Char)
  | [] => [[]]
  | c :: cs =>
    if c == ' ' then [] :: splitOnSpace cs
    else
      match splitOnSpace cs with
      | [] => [[c]]
      | g :: gs => (c :: g) :: gs

/-- Python's `str.split()` on spaces, dropping empty pieces. -/
def pySplit (l : List Char) : List (List Char) :=
  (splitOnSpace l).filter (fun t => ! t.isEmpty)

/-- `_is_type_comment` on an optional `cst.Comment` (held here as its full
text, `#` included): drop the `#`, strip, require the `type:` marker, and
reject `type: ignore` comments.  The source guards the `ignore` test with
a length check that the `head?` comparison already subsumes. -/
def isTypeComment? : Option String → Bool
  | none => false
  | some v =>
    if "type:".data.isPrefixOf (pyStripChars (v.data.drop 1)) then
      ! ((pySplit (pyStripChars ((pyStripChars (v.data.drop 1)).drop 5))).head?
          == some "ignore".data)
    else false

/-- Modelled from the spec: the external tokenizer side of type-comment
extraction (`ast.parse(..., type_comments=True)` is outside this
fragment).  Yields the payload after the `type:` marker of a trailing
comment, with `type: ignore` comments excluded, mirroring the conditions
of `_is_type_comment`. -/
def typeCommentPayload : Option String → Option String
  | none => none
  | some v =>
    if "type:".data.isPrefixOf (pyStripChars (v.data.drop 1)) then
      if (pySplit (pyStripChars ((pyStripChars (v.data.drop 1)).drop 5))).head?
          == some "ignore".data then none
      else some (String.mk (pyStripChars ((pyStripChars (v.data.drop 1)).drop 5)))
    else none

/-- A decoded function type comment (`ast.FunctionType`): the ordered
argument-type list and the return type. -/
structure FuncTy where
  argtypes : List TyExpr
  returns : TyExpr

/-- Modelled from the spec: the secondary mini-grammar is an external
collaborator with a narrow contract (text in, tree-or-failure out), so the
transform is parametrized over its two decode entry points. -/
structure Grammar where
  parseTy : String → Option TyExpr
  parseFuncTy : String → Option FuncTy

/-- `_annotation_for_statement` composed with `_parse_type_comment`: the
decoded annotation of a statement's trailing comment; `none` both when no
type comment is present and when the payload fails to decode. -/
def annForStmt (G : Grammar) (comment : Option String) : Option TyExpr :=
  (typeCommentPayload comment).bind G.parseTy

/-- `UnpackedAnnotations`: a single textual type or a tuple of such,
recursively. -/
inductive UAnn where
  | leaf (s : String)
  | tuple (elts : List UAnn)

/-- `UnpackedBindings`: a binding expression or a tuple of such,
recursively. -/
inductive UBind where
  | leaf (e : CExpr)
  | tuple (elts : List UBind)

mutual

/-- `AnnotationSpreader.unpack_annotation`: tuples unpack recursively,
everything else becomes its unparsed text. -/
def unpackAnn : TyExpr → UAnn
  | TyExpr.tup elts => UAnn.tuple (unpackAnnList elts)
  | TyExpr.atom s => UAnn.leaf (unparseTy (TyExpr.atom s))
  | TyExpr.ellipsisLit => UAnn.leaf (unparseTy TyExpr.ellipsisLit)

/-- `unpack_annotation` mapped over the elements of a tuple. -/
def unpackAnnList : List TyExpr → List UAnn
  | [] => []
  | t :: ts => unpackAnn t :: unpackAnnList ts

end

mutual

/-- `AnnotationSpreader.unpack_target`: `cst.Tuple` targets unpack
recursively, everything else is a leaf binding. -/
def unpackTarget : CExpr → UBind
  | CExpr.tup elements => UBind.tuple (unpackTargetList elements)
  | CExpr.name v => UBind.leaf (CExpr.name v)
  | CExpr.simpleString v => UBind.leaf (CExpr.simpleString v)
  | CExpr.num v => UBind.leaf (CExpr.num v)

/-- `unpack_target` mapped over the elements of a tuple. -/
def unpackTargetList : List CExpr → List UBind
  | [] => []
  | e :: es => unpackTarget e :: unpackTargetList es

end

mutual

/-- `AnnotationSpreader.annotated_bindings`: zip the binding shape with
the annotation shape.  Equal-length tuples zip recursively and flatten;
a leaf paired with a leaf yields one `(binding, type)` pair; any length
mismatch or tuple-versus-leaf pairing raises `_ArityError`, modelled as
`Except.error`. -/
def annotatedBindings : UBind → UAnn → Except Unit (List (CExpr × String))
  | UBind.tuple bs, UAnn.tuple anns =>
    if bs.length = anns.length then annotatedBindingsList bs anns
    else Except.error ()
  | UBind.leaf _, UAnn.tuple _ => Except.error ()
  | UBind.tuple _, UAnn.leaf _ => Except.error ()
  | UBind.leaf e, UAnn.leaf s => Except.ok [(e, s)]

/-- The flattened concatenation of `annotated_bindings` over paired
elements (the `zip` in the source; both lists have equal length at every
call site). -/
def annotatedBindingsList :
    List UBind → List UAnn → Except Unit (List (CExpr × String))
  | [], _ => Except.ok []
  | _ :: _, [] => Except.ok []
  | b :: bs, a :: anns => do
    let hd ← annotatedBindings b a
    let tl ← annotatedBindingsList bs anns
    Except.ok (hd ++ tl)

end

/-- The data of a `cst.Assign`: its target expressions (one per `=`
token), its value, and its optional trailing semicolon. -/
structure AssignData where
  targets : List CExpr
  value : CExpr
  semicolon : Bool

/-- The small statements a `cst.SimpleStatementLine` can hold in this
embedding: assignments, annotated assignments, and a stand-in for every
other small statement. -/
inductive Small where
  | assign (a : AssignData)
  | annAssign (target : CExpr) (ann : CAnn) (value : Option CExpr) (semicolon : Bool)
  | passStmt (semicolon : Bool)

/-- A `cst.EmptyLine`: an own-line comment (or a blank line, `none`). -/
structure EmptyLine where
  comment : Option String

/-- A `cst.SimpleStatementLine`: leading lines, the small-statement body,
and the trailing-whitespace comment (full text, `#` included). -/
structure SimpleLine where
  leadingLines : List EmptyLine
  body : List Small
  comment : Option String

/-- `AnnotationSpreader.type_declaration`: a `cst.AnnAssign` with the
converted annotation and no value. -/
def typeDeclaration (binding : CExpr) (rawAnn : String) : Small :=
  Small.annAssign binding (convertAnn rawAnn) none false

/-- `AnnotationSpreader.type_declaration_statements`: one
`SimpleStatementLine` per annotated binding, the first carrying the given
leading lines.  Propagates the arity error of `annotated_bindings`. -/
def typeDeclarationStatements (bindings : UBind) (anns : UAnn)
    (leading : List EmptyLine) : Except Unit (List SimpleLine) :=
  (annotatedBindings bindings anns).map fun prs =>
    prs.enum.map fun p =>
      ⟨if p.1 = 0 then leading else [], [typeDeclaration p.2.1 p.2.2], none⟩

/-- The result type of `convert_Assign`: `_FailedToApplyAnnotation`, a
single `AnnAssign`, or a list of declarations followed by the original
assignment. -/
inductive ConvertAssignResult where
  | failed
  | single (s : Small)
  | multiple (l : List Small)

/-- `convert_Assign`: zip the annotation against every assignment target;
an arity error anywhere fails the whole conversion.  A lone target with a
lone annotated binding becomes one `AnnAssign` keeping the value and
semicolon; otherwise one no-value type declaration per leaf binding is
followed by the untouched assignment. -/
def convertAssign (node : AssignData) (ann : TyExpr) : ConvertAssignResult :=
  match node.targets.mapM
      (fun t => annotatedBindings (unpackTarget t) (unpackAnn ann)) with
  | Except.error _ => ConvertAssignResult.failed
  | Except.ok annotatedTargets =>
    match annotatedTargets with
    | [[(binding, rawAnn)]] =>
      ConvertAssignResult.single
        (Small.annAssign binding (convertAnn rawAnn) (some node.value)
          node.semicolon)
    | _ =>
      ConvertAssignResult.multiple
        ((annotatedTargets.flatten.map fun p => typeDeclaration p.1 p.2) ++
          [Small.assign node])

/-- A `cst.Param`: star prefix, name, optional existing annotation, and
the inline trailing comment of the parameter (full text), which is where a
per-parameter type comment lives. -/
structure Param where
  star : String
  name : String
  ann : Option CAnn
  comment : Option String

/-- `cst.Parameters` restricted to the groups the codemod reads:
positional-only, plain positional, variadic positional, keyword-only, and
variadic keyword parameters. -/
structure Params where
  posonly : List Param
  params : List Param
  vararg : Option Param
  kwonly : List Param
  kwarg : Option Param

/-- Apply a function to every parameter of every group. -/
def mapParams (f : Param → Param) (ps : Params) : Params :=
  ⟨ps.posonly.map f, ps.params.map f, ps.vararg.map f, ps.kwonly.map f,
    ps.kwarg.map f⟩

/-- An `ast.arg`: the name and the extracted per-parameter type-comment
payload. -/
structure AstArg where
  arg : String
  typeComment : Option String

/-- A `cst.FunctionDef` with the fields the codemod touches: leading
lines, name, parameters, optional return annotation, the
trailing-whitespace comment of the `def` line (the header of the body's
`IndentedBlock`), and the body statements (each a simple statement line in
this one-level embedding). -/
structure FuncDefData where
  name : String
  leadingLines : List EmptyLine
  ps : Params
  retAnn : Option CAnn
  headerComment : Option String
  body : List SimpleLine

/-- The `args` list `FunctionTypeInfo.from_cst` builds: positional-only,
plain, variadic positional, keyword-only, then variadic keyword, each as
its `ast` view with the tokenizer-extracted comment payload. -/
def astArgs (ps : Params) : List AstArg :=
  ((ps.posonly ++ ps.params).map fun p =>
      ⟨p.name, typeCommentPayload p.comment⟩) ++
    (ps.vararg.map fun p =>
      (⟨p.name, typeCommentPayload p.comment⟩ : AstArg)).toList ++
    (ps.kwonly.map fun p => ⟨p.name, typeCommentPayload p.comment⟩) ++
    (ps.kwarg.map fun p =>
      (⟨p.name, typeCommentPayload p.comment⟩ : AstArg)).toList

/-- Modelled from the spec: where `ast` finds a function-level type
comment (the tokenizer is external to this fragment) — on the `def` line
after the colon, or on a leading line of the first body statement. -/
def astFuncTypeComment (fd : FuncDefData) : Option String :=
  match typeCommentPayload fd.headerComment with
  | some p => some p
  | none =>
    match fd.body.head? with
    | none => none
    | some first =>
      (first.leadingLines.filterMap fun l => typeCommentPayload l.comment).head?

/-- `FunctionTypeInfo`: parameter name to optional raw type text (an
association list standing for the `Dict`, with one entry per argument
as in the source), plus the optional raw return type. -/
structure FunctionTypeInfo where
  arguments : List (String × Option String)
  returns : Option String

/-- `FunctionTypeInfo.is_empty`. -/
def FunctionTypeInfo.isEmpty (i : FunctionTypeInfo) : Bool :=
  i.returns.isNone && i.arguments.isEmpty

/-- `dict.get` on the arguments map: `none` both for a missing key and
for a stored `None`. -/
def lookupArg (arguments : List (String × Option String)) (n : String) :
    Option String :=
  (arguments.lookup n).bind id

/-- Whether a body line's trailing type comment sits where the typed
grammar has no slot: only a final `Assign` small statement may carry one
(a trailing type comment on `pass` or on an annotated assignment is a
`SyntaxError` under `type_comments=True`). -/
def lineCommentIllegal (l : SimpleLine) : Bool :=
  (typeCommentPayload l.comment).isSome &&
    !(match l.body.getLast? with
      | some (Small.assign _) => true
      | _ => false)

/-- The number of own-line type comments among a statement's leading
lines. -/
def ownLineTypeComments (l : SimpleLine) : Nat :=
  (l.leadingLines.filterMap fun e => typeCommentPayload e.comment).length

/-- Modelled from the spec: whether `_ast_for_statement`'s typed re-parse
of the rendered function raises `SyntaxError` (the fallback of
`convert_type_comments.py` lines 28-40 then re-parses without type
comments, so the function yields no type information at all).  The parse
fails exactly when a type comment sits where the typed grammar has no
slot: on a leading line of the `def` itself, beyond the single own-line
slot after the colon (none at all if the colon line already carries one),
on a leading line of a later body statement, or trailing a non-assignment
body statement. -/
def funcTypedParseFails (fd : FuncDefData) : Bool :=
  (fd.leadingLines.any fun l => (typeCommentPayload l.comment).isSome) ||
  fd.body.any lineCommentIllegal ||
  (match fd.body with
   | [] => false
   | first :: rest =>
     decide (ownLineTypeComments first >
       (if (typeCommentPayload fd.headerComment).isSome then 0 else 1)) ||
     rest.any fun l => decide (0 < ownLineTypeComments l))

/-- `FunctionTypeInfo.from_cst`.  A typed re-parse failure (the
`_ast_for_statement` fallback) or a failed decode of the function-level
comment yields the empty info; an absent function-level comment harvests
only the inline per-parameter comments; the `(...) -> R` placeholder
keeps every inline comment and the return type; an argument list of
matching length merges positionally with inline comments winning; any
other length discards the whole comment. -/
def FunctionTypeInfo.fromCst (G : Grammar) (fd : FuncDefData) :
    FunctionTypeInfo :=
  if funcTypedParseFails fd then ⟨[], none⟩ else
  let args := astArgs fd.ps
  match astFuncTypeComment fd with
  | none =>
    ⟨args.filterMap fun a =>
        match a.typeComment with
        | some tc => some (a.arg, some tc)
        | none => none,
      none⟩
  | some c =>
    match G.parseFuncTy c with
    | none => ⟨[], none⟩
    | some fta =>
      match fta.argtypes with
      | [TyExpr.ellipsisLit] =>
        ⟨args.map fun a => (a.arg, a.typeComment),
          some (unparseTy fta.returns)⟩
      | argtypes =>
        if argtypes.length = args.length then
          ⟨(args.zip argtypes).map fun p =>
              (p.1.arg, some (p.1.typeComment.getD (unparseTy p.2))),
            some (unparseTy fta.returns)⟩
        else ⟨[], none⟩

/-- `Assign.with_changes(semicolon=MaybeSentinel.DEFAULT)` and its
counterparts on the other small statements: the default is no semicolon
in the rebuilt single-statement lines. -/
def setSemiDefault : Small → Small
  | Small.assign a => Small.assign ⟨a.targets, a.value, false⟩
  | Small.annAssign t a v _ => Small.annAssign t a v false
  | Small.passStmt _ => Small.passStmt false

/-- `ConvertTypeComments.leave_SimpleStatementLine`: convert a line whose
last small statement is an `Assign` with a decodable type comment.  The
single-`AnnAssign` case rewrites the last statement and strips the
trailing comment; the multi-declaration case flattens into one line per
statement, stripping the comment from the first; every failure returns
the line untouched. -/
def leaveSimpleLine (G : Grammar) (line : SimpleLine) : List SimpleLine :=
  match line.body.getLast? with
  | some (Small.assign a) =>
    match annForStmt G line.comment with
    | none => [line]
    | some ann =>
      match convertAssign a ann with
      | ConvertAssignResult.failed => [line]
      | ConvertAssignResult.single converted =>
        [⟨line.leadingLines, line.body.dropLast ++ [converted], none⟩]
      | ConvertAssignResult.multiple converted =>
        match (line.body.dropLast.map setSemiDefault) ++ converted with
        | [] => [line]
        | first :: rest =>
          ⟨line.leadingLines, [first], none⟩ ::
            rest.map fun s => ⟨[], [s], none⟩
  | _ => [line]

/-- A `cst.For` with the fields the codemod touches; the body is an
indented block whose header comment is `headerComment`. -/
structure ForData where
  leadingLines : List EmptyLine
  target : CExpr
  iter : CExpr
  headerComment : Option String
  body : List SimpleLine

/-- A `cst.WithItem`: the context expression and the optional `as`
binding. -/
structure WithItem where
  item : CExpr
  asname : Option CExpr

/-- A `cst.With` with the fields the codemod touches. -/
structure WithData where
  leadingLines : List EmptyLine
  items : List WithItem
  headerComment : Option String
  body : List SimpleLine

/-- The statements of a module in this embedding.  Compound bodies are
one level deep: they hold simple statement lines. -/
inductive Stmt where
  | simpleLine (l : SimpleLine)
  | forS (f : ForData)
  | withS (w : WithData)
  | funcDef (fd : FuncDefData)

/-- `ConvertTypeComments.leave_For`: prepend one type-declaration line per
leaf binding of the loop target and strip the header comment; on a
missing/undecodable comment or an arity error return the node
untouched. -/
def leaveFor (G : Grammar) (f : ForData) : List Stmt :=
  match annForStmt G f.headerComment with
  | none => [Stmt.forS f]
  | some ann =>
    match typeDeclarationStatements (unpackTarget f.target) (unpackAnn ann)
        f.leadingLines with
    | Except.error _ => [Stmt.forS f]
    | Except.ok decls =>
      decls.map Stmt.simpleLine ++
        [Stmt.forS ⟨[], f.target, f.iter, none, f.body⟩]

/-- `ConvertTypeComments.leave_With`: as for `For`, but only when exactly
one item carries an `as` binding; otherwise the node is returned
untouched. -/
def leaveWith (G : Grammar) (w : WithData) : List Stmt :=
  match annForStmt G w.headerComment with
  | none => [Stmt.withS w]
  | some ann =>
    match w.items.filterMap (fun i => i.asname) with
    | [target] =>
      match typeDeclarationStatements (unpackTarget target) (unpackAnn ann)
          w.leadingLines with
      | Except.error _ => [Stmt.withS w]
      | Except.ok decls =>
        decls.map Stmt.simpleLine ++
          [Stmt.withS ⟨[], w.items, none, w.body⟩]
    | _ => [Stmt.withS w]

/-- The aggressive type-comment stripping of `leave_TrailingWhitespace`
applied to a parameter's inline comment while inside a function
header. -/
def stripParamComment (p : Param) : Param :=
  if isTypeComment? p.comment then ⟨p.star, p.name, p.ann, none⟩ else p

/-- The aggressive `leave_EmptyLine` removal of type-comment lines while
inside a function header. -/
def stripLeadingTypeComments (ls : List EmptyLine) : List EmptyLine :=
  ls.filter fun l => ! isTypeComment? l.comment

/-- `ConvertTypeComments.leave_Param`: an existing annotation always
wins; otherwise an available raw type from the function's info is
converted and applied. -/
def annotateParam (info : FunctionTypeInfo) (p : Param) : Param :=
  match p.ann with
  | some _ => p
  | none =>
    match lookupArg info.arguments p.name with
    | some raw => ⟨p.star, p.name, some (convertAnn raw), p.comment⟩
    | none => p

/-- The `leave_IndentedBlock` stripping on a function body: clear a
type-comment header, and filter type-comment leading lines off the first
body statement. -/
def stripFuncBodyComments (headerComment : Option String)
    (body : List SimpleLine) : Option String × List SimpleLine :=
  (if isTypeComment? headerComment then none else headerComment,
   match body with
   | [] => []
   | first :: rest =>
     ⟨stripLeadingTypeComments first.leadingLines, first.body,
       first.comment⟩ :: rest)

/-- The whole traversal of one `FunctionDef`: compute the info at
`visit_FunctionDef`; while the info is non-empty aggressively strip type
comments from the header region (leading lines, parameter comments);
annotate parameters from the info; transform the body statements with the
aggressive stripping off; apply the `leave_IndentedBlock` stripping when
the info is non-empty; finally apply the return type at
`leave_FunctionDef` if none exists. -/
def transformFuncDef (G : Grammar) (fd : FuncDefData) : FuncDefData :=
  let info := FunctionTypeInfo.fromCst G fd
  let fd1 : FuncDefData :=
    if info.isEmpty then fd
    else
      ⟨fd.name, stripLeadingTypeComments fd.leadingLines,
        mapParams stripParamComment fd.ps, fd.retAnn, fd.headerComment,
        fd.body⟩
  let fd2 : FuncDefData :=
    ⟨fd1.name, fd1.leadingLines, mapParams (annotateParam info) fd1.ps,
      fd1.retAnn, fd1.headerComment,
      fd1.body.flatMap (leaveSimpleLine G)⟩
  let fd3 : FuncDefData :=
    if info.isEmpty then fd2
    else
      let stripped := stripFuncBodyComments fd2.headerComment fd2.body
      ⟨fd2.name, fd2.leadingLines, fd2.ps, fd2.retAnn, stripped.1,
        stripped.2⟩
  match fd3.retAnn, info.returns with
  | none, some r =>
    ⟨fd3.name, fd3.leadingLines, fd3.ps, some (convertAnn r),
      fd3.headerComment, fd3.body⟩
  | _, _ => fd3

/-- The rewrite-protocol traversal of one statement: children first
(compound bodies), then the statement's own leave hook, which may flatten
into several sibling statements. -/
def transformStmt (G : Grammar) : Stmt → List Stmt
  | Stmt.simpleLine l => (leaveSimpleLine G l).map Stmt.simpleLine
  | Stmt.forS f =>
    leaveFor G ⟨f.leadingLines, f.target, f.iter, f.headerComment,
      f.body.flatMap (leaveSimpleLine G)⟩
  | Stmt.withS w =>
    leaveWith G ⟨w.leadingLines, w.items, w.headerComment,
      w.body.flatMap (leaveSimpleLine G)⟩
  | Stmt.funcDef fd => [Stmt.funcDef (transformFuncDef G fd)]

/-- The codemod on a whole module: each statement's flatten result is
spliced into the module's statement sequence. -/
def transformModule (G : Grammar) (m : List Stmt) : List Stmt :=
  m.flatMap (transformStmt G)

/-- Replace the leading lines of the first statement of a sequence (the
shape in which a rewrite hands leading lines to its first output
line). -/
def setFirstLeading (x : List EmptyLine) : List SimpleLine → List SimpleLine
  | [] => []
  | a :: r => ⟨x, a.body, a.comment⟩ :: r

/-- All comment texts of a simple statement line (leading lines, then the
trailing comment). -/
def commentsOfLine (l : SimpleLine) : List String :=
  (l.leadingLines.filterMap fun e => e.comment) ++ l.comment.toList

/-- All comment texts of a parameter group. -/
def commentsOfParams (ps : Params) : List String :=
  ((ps.posonly ++ ps.params).filterMap fun p => p.comment) ++
    (ps.vararg.bind fun p => p.comment).toList ++
    (ps.kwonly.filterMap fun p => p.comment) ++
    (ps.kwarg.bind fun p => p.comment).toList

/-- All comment texts appearing anywhere in a statement, in source
order. -/
def commentsOfStmt : Stmt → List String
  | Stmt.simpleLine l => commentsOfLine l
  | Stmt.forS f =>
    (f.leadingLines.filterMap fun e => e.comment) ++ f.headerComment.toList ++
      f.body.flatMap commentsOfLine
  | Stmt.withS w =>
    (w.leadingLines.filterMap fun e => e.comment) ++ w.headerComment.toList ++
      w.body.flatMap commentsOfLine
  | Stmt.funcDef fd =>
    (fd.leadingLines.filterMap fun e => e.comment) ++
      commentsOfParams fd.ps ++ fd.headerComment.toList ++
      fd.body.flatMap commentsOfLine

/-- All comment texts of a module's statements. -/
def commentsOfModule (m : List Stmt) : List String :=
  m.flatMap commentsOfStmt

/-- A small concrete instance of the external mini-grammar, decoding the
handful of payloads the concrete examples use. -/
def demoGrammar : Grammar where
  parseTy := fun s =>
    if s = "int" then some (TyExpr.atom "int")
    else if s = "int, str" then
      some (TyExpr.tup [TyExpr.atom "int", TyExpr.atom "str"])
    else if s = "(int,)" then some (TyExpr.tup [TyExpr.atom "int"])
    else if s = "int, int" then
      some (TyExpr.tup [TyExpr.atom "int", TyExpr.atom "int"])
    else none
  parseFuncTy := fun s =>
    if s = "() -> None" then some ⟨[], TyExpr.atom "None"⟩
    else if s = "() -> int" then some ⟨[], TyExpr.atom "int"⟩
    else if s = "(int) -> str" then
      some ⟨[TyExpr.atom "int"], TyExpr.atom "str"⟩
    else if s = "(...) -> int" then
      some ⟨[TyExpr.ellipsisLit], TyExpr.atom "int"⟩
    else none

end CTC
namespace RoundTrip

theorem parseModule_nil_iff (text : List Char) : parseModule text = [] ↔ text = [] := by
  constructor
  · intro h
    cases text with
    | nil => rfl
    | cons c cs =>
      unfold parseModule at h
      by_cases hc : c = '\n'
      · simp [hc] at h
      · simp only [hc, if_false] at h
        cases hm : parseModule cs with
        | nil => rw [hm] at h; simp at h
        | cons l rest => rw [hm] at h; simp at h
  · intro h; subst h; rfl

theorem renderModule_parseModule (text : List Char) :
    renderModule (parseModule text) = text := by
  induction text with
  | nil => rfl
  | cons c cs ih =>
    unfold parseModule
    by_cases hc : c = '\n'
    · subst hc
      simp only [if_pos rfl]
      simpa [renderModule, renderLine] using ih
    · simp only [hc, if_false]
      cases hm : parseModule cs with
      | nil =>
        have : cs = [] := (parseModule_nil_iff cs).mp hm
        subst this
        simp [renderModule, renderLine]
      | cons l rest =>
        rw [hm] at ih
        simp only [renderModule, renderLine, List.map_cons, List.flatten_cons] at ih ⊢
        simp only [List.cons_append]
        rw [ih]

theorem renderLine_parseStatement (text : List Char) (l : Line)
    (h : parseStatement text = some l) : renderLine l = text := by
  unfold parseStatement at h
  cases hm : parseModule text with
  | nil => rw [hm] at h; simp at h
  | cons x rest =>
    rw [hm] at h
    cases rest with
    | nil =>
      simp only [Option.some.injEq] at h
      subst h
      have := renderModule_parseModule text
      rw [hm] at this
      simpa [renderModule] using this
    | cons y t => simp at h

theorem renderLine_parseExpression (text : List Char) (l : Line)
    (h : parseExpression text = some l) : renderLine l = text := by
  unfold parseExpression at h
  split at h
  · exact absurd h (by simp)
  · simp only [Option.some.injEq] at h
    subst h
    simp [renderLine]

end RoundTrip

namespace CTC

theorem typeCommentPayload_isSome_isTypeComment (c : Option String)
    (h : (typeCommentPayload c).isSome) : isTypeComment? c = true := by
  cases c with
  | none => simp [typeCommentPayload] at h
  | some v =>
    unfold typeCommentPayload at h
    unfold isTypeComment?
    dsimp only at h ⊢
    split at h
    · next hcond =>
      split at h
      · simp at h
      · next hign =>
        rw [if_pos hcond]
        have hX : ((pySplit (pyStripChars
            ((pyStripChars (v.data.drop 1)).drop 5))).head?
              == some "ignore".data) = false := by
          cases hb : ((pySplit (pyStripChars
              ((pyStripChars (v.data.drop 1)).drop 5))).head?
                == some "ignore".data) with
          | false => rfl
          | true => exact absurd hb hign
        rw [hX]
        rfl
    · next hcond =>
      exact absurd h (by simp)

end CTC

namespace CTC

theorem annForStmt_none (G : Grammar) : annForStmt G none = none := rfl

theorem payload_none_of_not_type_comment (c : Option String)
    (h : isTypeComment? c = false) : typeCommentPayload c = none := by
  cases hp : typeCommentPayload c with
  | none => rfl
  | some p =>
    have hs := typeCommentPayload_isSome_isTypeComment c (by simp [hp])
    simp [h] at hs

theorem leaveSimpleLine_of_ann_none (G : Grammar) (line : SimpleLine)
    (h : annForStmt G line.comment = none) : leaveSimpleLine G line = [line] := by
  unfold leaveSimpleLine
  split
  · rw [h]
  · rfl

theorem leaveSimpleLine_of_comment_none (G : Grammar) (line : SimpleLine)
    (h : line.comment = none) : leaveSimpleLine G line = [line] :=
  leaveSimpleLine_of_ann_none G line (by rw [h]; rfl)

theorem leaveSimpleLine_cases (G : Grammar) (l : SimpleLine) :
    leaveSimpleLine G l = [l] ∨
      ∀ l' ∈ leaveSimpleLine G l, l'.comment = none := by
  unfold leaveSimpleLine
  split
  · split
    · exact Or.inl rfl
    · split
      · exact Or.inl rfl
      · refine Or.inr ?_
        intro l' hl'
        simp only [List.mem_singleton] at hl'
        subst hl'
        rfl
      · split
        · exact Or.inl rfl
        · refine Or.inr ?_
          intro l' hl'
          simp only [List.mem_cons] at hl'
          rcases hl' with h | h
          · subst h; rfl
          · simp only [List.mem_map] at h
            rcases h with ⟨s, _, rfl⟩
            rfl
  · exact Or.inl rfl

theorem leaveSimpleLine_stable (G : Grammar) (l : SimpleLine) :
    ∀ l' ∈ leaveSimpleLine G l, leaveSimpleLine G l' = [l'] := by
  intro l' hl'
  rcases leaveSimpleLine_cases G l with h | h
  · rw [h] at hl'
    simp only [List.mem_singleton] at hl'
    subst hl'
    exact h
  · exact leaveSimpleLine_of_comment_none G l' (h l' hl')

theorem flatMap_of_stable {α : Type} (f : α → List α) (xs : List α)
    (h : ∀ x ∈ xs, f x = [x]) : xs.flatMap f = xs := by
  induction xs with
  | nil => rfl
  | cons x r ih =>
    simp only [List.flatMap_cons]
    rw [h x (List.mem_cons_self x r), ih fun y hy => h y (List.mem_cons_of_mem x hy)]
    rfl

theorem flatMap_leaveSimpleLine_stable (G : Grammar) (body : List SimpleLine) :
    (body.flatMap (leaveSimpleLine G)).flatMap (leaveSimpleLine G) =
      body.flatMap (leaveSimpleLine G) := by
  apply flatMap_of_stable
  intro l' hl'
  simp only [List.mem_flatMap] at hl'
  rcases hl' with ⟨l, hl, hl'⟩
  exact leaveSimpleLine_stable G l l' hl'

end CTC

namespace CTC

theorem leaveSimpleLine_head_shape (G : Grammar) (l : SimpleLine) :
    ∃ b c rest, leaveSimpleLine G l = ⟨l.leadingLines, b, c⟩ :: rest := by
  unfold leaveSimpleLine
  split
  · split
    · exact ⟨l.body, l.comment, [], rfl⟩
    · split
      · exact ⟨l.body, l.comment, [], rfl⟩
      · exact ⟨_, _, [], rfl⟩
      · split
        · exact ⟨l.body, l.comment, [], rfl⟩
        · exact ⟨_, _, _, rfl⟩
  · exact ⟨l.body, l.comment, [], rfl⟩

theorem leaveSimpleLine_setLeading (G : Grammar) (l : SimpleLine)
    (x : List EmptyLine) :
    leaveSimpleLine G ⟨x, l.body, l.comment⟩ =
      setFirstLeading x (leaveSimpleLine G l) := by
  obtain ⟨ld, bd, cm⟩ := l
  unfold leaveSimpleLine
  dsimp only
  split
  · split
    · rfl
    · split
      · rfl
      · rfl
      · split
        · rfl
        · rfl
  · rfl

end CTC

namespace CTC

theorem annotateParam_comment (info : FunctionTypeInfo) (p : Param) :
    (annotateParam info p).comment = p.comment := by
  unfold annotateParam
  split
  · rfl
  · split
    · rfl
    · rfl

theorem stripParamComment_payload (p : Param) :
    typeCommentPayload (stripParamComment p).comment = none := by
  unfold stripParamComment
  cases h : isTypeComment? p.comment with
  | true => simp [h, typeCommentPayload]
  | false => simp [h, payload_none_of_not_type_comment p.comment h]

theorem stripLeading_payload_none (ls : List EmptyLine) :
    ((stripLeadingTypeComments ls).filterMap fun l => typeCommentPayload l.comment)
      = [] := by
  induction ls with
  | nil => rfl
  | cons e r ih =>
    unfold stripLeadingTypeComments at ih ⊢
    cases he : isTypeComment? e.comment with
    | true => simpa [List.filter_cons, he] using ih
    | false =>
      simp [List.filter_cons, he, List.filterMap_cons,
        payload_none_of_not_type_comment e.comment he, ih]

theorem annotateParam_empty (p : Param) :
    annotateParam ⟨[], none⟩ p = p := by
  unfold annotateParam
  cases p.ann with
  | some a =>
    split
    · rfl
    · split
      · next hr => simp [lookupArg] at hr
      · rfl
  | none =>
    split
    · rfl
    · split
      · next hr => simp [lookupArg] at hr
      · rfl

theorem mapParams_annotateParam_empty (ps : Params) :
    mapParams (annotateParam ⟨[], none⟩) ps = ps := by
  have h : annotateParam ⟨[], none⟩ = id := funext annotateParam_empty
  unfold mapParams
  rw [h]
  simp

theorem isEmpty_shape (i : FunctionTypeInfo) (h : i.isEmpty = true) :
    i = ⟨[], none⟩ := by
  obtain ⟨args, ret⟩ := i
  unfold FunctionTypeInfo.isEmpty at h
  simp only [Bool.and_eq_true, Option.isNone_iff_eq_none, List.isEmpty_iff] at h
  obtain ⟨h1, h2⟩ := h
  rw [h1, h2]

theorem fromCst_eq_of_fields (G : Grammar) (fd1 fd2 : FuncDefData)
    (h0 : funcTypedParseFails fd1 = funcTypedParseFails fd2)
    (h1 : astFuncTypeComment fd1 = astFuncTypeComment fd2)
    (h2 : fd1.ps = fd2.ps) :
    FunctionTypeInfo.fromCst G fd1 = FunctionTypeInfo.fromCst G fd2 := by
  unfold FunctionTypeInfo.fromCst
  rw [h0, h1, h2]

theorem leaveSimpleLine_of_illegal (G : Grammar) (l : SimpleLine)
    (h : lineCommentIllegal l = true) : leaveSimpleLine G l = [l] := by
  unfold lineCommentIllegal at h
  simp only [Bool.and_eq_true, Bool.not_eq_true'] at h
  obtain ⟨hpay, hnot⟩ := h
  unfold leaveSimpleLine
  split
  · next a heq => rw [heq] at hnot; simp at hnot
  · rfl

theorem funcTypedParseFails_body_flatMap (G : Grammar) (fd : FuncDefData)
    (h : funcTypedParseFails fd = true) :
    funcTypedParseFails ⟨fd.name, fd.leadingLines, fd.ps, fd.retAnn,
      fd.headerComment, fd.body.flatMap (leaveSimpleLine G)⟩ = true := by
  obtain ⟨nm, ld, ps, ra, hc, bd⟩ := fd
  unfold funcTypedParseFails at h ⊢
  dsimp only at h ⊢
  simp only [Bool.or_eq_true] at h ⊢
  rcases h with (h | h) | h
  · exact Or.inl (Or.inl h)
  · refine Or.inl (Or.inr ?_)
    rw [List.any_eq_true] at h ⊢
    obtain ⟨l, hl, hP⟩ := h
    refine ⟨l, ?_, hP⟩
    rw [List.mem_flatMap]
    exact ⟨l, hl, by
      rw [leaveSimpleLine_of_illegal G l hP]
      exact List.mem_singleton.mpr rfl⟩
  · refine Or.inr ?_
    cases bd with
    | nil => simp at h
    | cons first rest =>
      obtain ⟨b, c, tl, hf⟩ := leaveSimpleLine_head_shape G first
      simp only [List.flatMap_cons, hf, List.cons_append]
      simp only [Bool.or_eq_true] at h ⊢
      rcases h with h | h
      · exact Or.inl h
      · right
        rw [List.any_eq_true] at h ⊢
        obtain ⟨l, hl, hQ⟩ := h
        obtain ⟨b2, c2, tl2, hf2⟩ := leaveSimpleLine_head_shape G l
        refine ⟨⟨l.leadingLines, b2, c2⟩, ?_, hQ⟩
        rw [List.mem_append]
        right
        rw [List.mem_flatMap]
        exact ⟨l, hl, by rw [hf2]; exact List.mem_cons_self _ _⟩

theorem astFuncTypeComment_body_flatMap (G : Grammar) (fd : FuncDefData) :
    astFuncTypeComment ⟨fd.name, fd.leadingLines, fd.ps, fd.retAnn,
        fd.headerComment, fd.body.flatMap (leaveSimpleLine G)⟩ =
      astFuncTypeComment fd := by
  unfold astFuncTypeComment
  dsimp only
  cases typeCommentPayload fd.headerComment with
  | some p => rfl
  | none =>
    cases fd.body with
    | nil => rfl
    | cons first rest =>
      obtain ⟨b, c, r, hf⟩ := leaveSimpleLine_head_shape G first
      simp [List.flatMap_cons, hf]

end CTC

namespace CTC

theorem leaveSimpleLine_stable_flat (G : Grammar) (body : List SimpleLine) :
    ∀ l' ∈ body.flatMap (leaveSimpleLine G), leaveSimpleLine G l' = [l'] := by
  intro l' hl'
  simp only [List.mem_flatMap] at hl'
  rcases hl' with ⟨l, _, hl'⟩
  exact leaveSimpleLine_stable G l l' hl'

theorem transformFuncDef_of_empty (G : Grammar) (fd : FuncDefData)
    (h : FunctionTypeInfo.fromCst G fd = ⟨[], none⟩) :
    transformFuncDef G fd =
      ⟨fd.name, fd.leadingLines, fd.ps, fd.retAnn, fd.headerComment,
        fd.body.flatMap (leaveSimpleLine G)⟩ := by
  obtain ⟨nm, ld, ps, ra, hc, bd⟩ := fd
  unfold transformFuncDef
  rw [h]
  simp only [FunctionTypeInfo.isEmpty, Option.isNone_none, List.isEmpty_nil,
    Bool.and_self, if_true, mapParams_annotateParam_empty]

theorem transformFuncDef_of_nonempty (G : Grammar) (fd : FuncDefData)
    (h : (FunctionTypeInfo.fromCst G fd).isEmpty = false) :
    transformFuncDef G fd =
      ⟨fd.name, stripLeadingTypeComments fd.leadingLines,
        mapParams (annotateParam (FunctionTypeInfo.fromCst G fd))
          (mapParams stripParamComment fd.ps),
        (match fd.retAnn, (FunctionTypeInfo.fromCst G fd).returns with
         | none, some r => some (convertAnn r)
         | _, _ => fd.retAnn),
        (stripFuncBodyComments fd.headerComment
          (fd.body.flatMap (leaveSimpleLine G))).1,
        (stripFuncBodyComments fd.headerComment
          (fd.body.flatMap (leaveSimpleLine G))).2⟩ := by
  obtain ⟨nm, ld, ps, ra, hc, bd⟩ := fd
  unfold transformFuncDef
  simp only [h, Bool.false_eq_true, if_false]
  cases ra with
  | none =>
    cases hr : (FunctionTypeInfo.fromCst G ⟨nm, ld, ps, none, hc, bd⟩).returns
      <;> rfl
  | some r0 =>
    cases hr : (FunctionTypeInfo.fromCst G ⟨nm, ld, ps, some r0, hc, bd⟩).returns
      <;> rfl

end CTC

namespace CTC

theorem payload_strip_annot (info : FunctionTypeInfo) (p : Param) :
    typeCommentPayload (annotateParam info (stripParamComment p)).comment = none := by
  rw [annotateParam_comment]
  exact stripParamComment_payload p

theorem mem_astArgs_view (ps' : Params) (a : AstArg) (h : a ∈ astArgs ps') :
    ∃ p : Param, a = ⟨p.name, typeCommentPayload p.comment⟩ ∧
      (p ∈ ps'.posonly ∨ p ∈ ps'.params ∨ ps'.vararg = some p ∨
        p ∈ ps'.kwonly ∨ ps'.kwarg = some p) := by
  obtain ⟨po, pr, va, ko, kw⟩ := ps'
  unfold astArgs at h
  dsimp only at h
  simp only [List.mem_append] at h
  rcases h with ((h | h) | h) | h
  · rw [List.mem_map] at h
    obtain ⟨p, hp, he⟩ := h
    rw [List.mem_append] at hp
    exact ⟨p, he.symm, by tauto⟩
  · cases va with
    | none => simp at h
    | some p =>
      simp only [Option.map_some', Option.toList_some, List.mem_singleton] at h
      exact ⟨p, h, by tauto⟩
  · rw [List.mem_map] at h
    obtain ⟨p, hp, he⟩ := h
    exact ⟨p, he.symm, by tauto⟩
  · cases kw with
    | none => simp at h
    | some p =>
      simp only [Option.map_some', Option.toList_some, List.mem_singleton] at h
      exact ⟨p, h, by tauto⟩

theorem astArgs_typeComment_none (info : FunctionTypeInfo) (ps : Params) :
    ∀ a ∈ astArgs (mapParams (annotateParam info) (mapParams stripParamComment ps)),
      a.typeComment = none := by
  intro a ha
  obtain ⟨p, rfl, hp⟩ := mem_astArgs_view _ a ha
  suffices hq : ∃ q, p = annotateParam info (stripParamComment q) by
    obtain ⟨q, rfl⟩ := hq
    exact payload_strip_annot info q
  obtain ⟨po, pr, va, ko, kw⟩ := ps
  unfold mapParams at hp
  dsimp only at hp
  rcases hp with h | h | h | h | h
  · rw [List.map_map, List.mem_map] at h
    obtain ⟨q, _, hq⟩ := h
    exact ⟨q, hq.symm⟩
  · rw [List.map_map, List.mem_map] at h
    obtain ⟨q, _, hq⟩ := h
    exact ⟨q, hq.symm⟩
  · rw [Option.map_map] at h
    cases va with
    | none => simp at h
    | some q =>
      rw [Option.map_some'] at h
      exact ⟨q, (Option.some.injEq _ _ ▸ h :
        (annotateParam info ∘ stripParamComment) q = p).symm⟩
  · rw [List.map_map, List.mem_map] at h
    obtain ⟨q, _, hq⟩ := h
    exact ⟨q, hq.symm⟩
  · rw [Option.map_map] at h
    cases kw with
    | none => simp at h
    | some q =>
      rw [Option.map_some'] at h
      exact ⟨q, (Option.some.injEq _ _ ▸ h :
        (annotateParam info ∘ stripParamComment) q = p).symm⟩

end CTC

namespace CTC

theorem fromCst_transformFuncDef (G : Grammar) (fd : FuncDefData) :
    FunctionTypeInfo.fromCst G (transformFuncDef G fd) = ⟨[], none⟩ := by
  cases hE : (FunctionTypeInfo.fromCst G fd).isEmpty with
  | true =>
    have hsh := isEmpty_shape _ hE
    rw [transformFuncDef_of_empty G fd hsh]
    cases hg : funcTypedParseFails fd with
    | true =>
      have hg2 := funcTypedParseFails_body_flatMap G fd hg
      unfold FunctionTypeInfo.fromCst
      rw [hg2, if_pos rfl]
    | false =>
      cases hg2 : funcTypedParseFails ⟨fd.name, fd.leadingLines, fd.ps,
          fd.retAnn, fd.headerComment,
          fd.body.flatMap (leaveSimpleLine G)⟩ with
      | true =>
        unfold FunctionTypeInfo.fromCst
        rw [hg2, if_pos rfl]
      | false =>
        rw [fromCst_eq_of_fields G _ fd (by rw [hg2, hg])
          (astFuncTypeComment_body_flatMap G fd) rfl]
        exact hsh
  | false =>
    rw [transformFuncDef_of_nonempty G fd hE]
    generalize fd.body.flatMap (leaveSimpleLine G) = T
    generalize FunctionTypeInfo.fromCst G fd = info0
    have hast : astFuncTypeComment
        ⟨fd.name, stripLeadingTypeComments fd.leadingLines,
          mapParams (annotateParam info0)
            (mapParams stripParamComment fd.ps),
          (match fd.retAnn, info0.returns with
           | none, some r => some (convertAnn r)
           | _, _ => fd.retAnn),
          (stripFuncBodyComments fd.headerComment T).1,
          (stripFuncBodyComments fd.headerComment T).2⟩ = none := by
      unfold astFuncTypeComment stripFuncBodyComments
      dsimp only
      have h1 : typeCommentPayload
          (if isTypeComment? fd.headerComment then none else fd.headerComment)
            = none := by
        cases hic : isTypeComment? fd.headerComment with
        | true => simp [hic, typeCommentPayload]
        | false => simp [hic, payload_none_of_not_type_comment _ hic]
      rw [h1]
      cases T with
      | nil => rfl
      | cons first rest =>
        dsimp only
        simp [stripLeading_payload_none]
    cases hg : funcTypedParseFails
        ⟨fd.name, stripLeadingTypeComments fd.leadingLines,
          mapParams (annotateParam info0)
            (mapParams stripParamComment fd.ps),
          (match fd.retAnn, info0.returns with
           | none, some r => some (convertAnn r)
           | _, _ => fd.retAnn),
          (stripFuncBodyComments fd.headerComment T).1,
          (stripFuncBodyComments fd.headerComment T).2⟩ with
    | true =>
      unfold FunctionTypeInfo.fromCst
      rw [hg, if_pos rfl]
    | false =>
      unfold FunctionTypeInfo.fromCst
      rw [hg, if_neg (by decide), hast]
      dsimp only
      congr 1
      exact List.filterMap_eq_nil_iff.mpr fun a ha => by
        rw [astArgs_typeComment_none _ _ a ha]

theorem transformFuncDef_body_stable (G : Grammar) (fd : FuncDefData) :
    (transformFuncDef G fd).body.flatMap (leaveSimpleLine G) =
      (transformFuncDef G fd).body := by
  cases hE : (FunctionTypeInfo.fromCst G fd).isEmpty with
  | true =>
    rw [transformFuncDef_of_empty G fd (isEmpty_shape _ hE)]
    exact flatMap_leaveSimpleLine_stable G fd.body
  | false =>
    rw [transformFuncDef_of_nonempty G fd hE]
    dsimp only
    unfold stripFuncBodyComments
    dsimp only
    cases hT : fd.body.flatMap (leaveSimpleLine G) with
    | nil => rfl
    | cons first rest =>
      have hfirst : leaveSimpleLine G first = [first] :=
        leaveSimpleLine_stable_flat G fd.body first
          (hT ▸ List.mem_cons_self first rest)
      have hrest : ∀ l' ∈ rest, leaveSimpleLine G l' = [l'] := fun l' hl' =>
        leaveSimpleLine_stable_flat G fd.body l'
          (hT ▸ List.mem_cons_of_mem first hl')
      apply flatMap_of_stable
      intro x hx
      rcases List.mem_cons.mp hx with rfl | hx'
      · have hset := leaveSimpleLine_setLeading G first
          (stripLeadingTypeComments first.leadingLines)
        rw [hfirst] at hset
        exact hset
      · exact hrest x hx'

theorem transformFuncDef_stable (G : Grammar) (fd : FuncDefData) :
    transformFuncDef G (transformFuncDef G fd) = transformFuncDef G fd := by
  rw [transformFuncDef_of_empty G _ (fromCst_transformFuncDef G fd),
    transformFuncDef_body_stable G fd]

end CTC

namespace CTC

theorem typeDeclarationStatements_comment_none (bindings : UBind) (anns : UAnn)
    (leading : List EmptyLine) (decls : List SimpleLine)
    (h : typeDeclarationStatements bindings anns leading = Except.ok decls) :
    ∀ d ∈ decls, d.comment = none := by
  unfold typeDeclarationStatements at h
  cases hab : annotatedBindings bindings anns with
  | error e => rw [hab] at h; simp [Except.map] at h
  | ok prs =>
    rw [hab] at h
    simp only [Except.map, Except.ok.injEq] at h
    subst h
    intro d hd
    simp only [List.mem_map] at hd
    rcases hd with ⟨p, _, rfl⟩
    rfl

theorem leaveFor_of_ann_none (G : Grammar) (ld : List EmptyLine) (tg it : CExpr)
    (hc : Option String) (bd : List SimpleLine)
    (h : annForStmt G hc = none) :
    leaveFor G ⟨ld, tg, it, hc, bd⟩ = [Stmt.forS ⟨ld, tg, it, hc, bd⟩] := by
  unfold leaveFor
  rw [h]

theorem leaveFor_of_arity_error (G : Grammar) (ld : List EmptyLine)
    (tg it : CExpr) (hc : Option String) (bd : List SimpleLine) (ann : TyExpr)
    (ha : annForStmt G hc = some ann)
    (he : typeDeclarationStatements (unpackTarget tg) (unpackAnn ann) ld =
      Except.error ()) :
    leaveFor G ⟨ld, tg, it, hc, bd⟩ = [Stmt.forS ⟨ld, tg, it, hc, bd⟩] := by
  unfold leaveFor
  simp only [ha, he]

theorem leaveFor_of_decls (G : Grammar) (ld : List EmptyLine) (tg it : CExpr)
    (hc : Option String) (bd : List SimpleLine) (ann : TyExpr)
    (decls : List SimpleLine)
    (ha : annForStmt G hc = some ann)
    (hd : typeDeclarationStatements (unpackTarget tg) (unpackAnn ann) ld =
      Except.ok decls) :
    leaveFor G ⟨ld, tg, it, hc, bd⟩ =
      decls.map Stmt.simpleLine ++ [Stmt.forS ⟨[], tg, it, none, bd⟩] := by
  unfold leaveFor
  simp only [ha, hd]

theorem leaveWith_of_ann_none (G : Grammar) (ld : List EmptyLine)
    (items : List WithItem) (hc : Option String) (bd : List SimpleLine)
    (h : annForStmt G hc = none) :
    leaveWith G ⟨ld, items, hc, bd⟩ = [Stmt.withS ⟨ld, items, hc, bd⟩] := by
  unfold leaveWith
  rw [h]

theorem leaveWith_of_targets (G : Grammar) (ld : List EmptyLine)
    (items : List WithItem) (hc : Option String) (bd : List SimpleLine)
    (ann : TyExpr)
    (ha : annForStmt G hc = some ann)
    (ht : ∀ t, (items.filterMap fun i => i.asname) ≠ [t]) :
    leaveWith G ⟨ld, items, hc, bd⟩ = [Stmt.withS ⟨ld, items, hc, bd⟩] := by
  unfold leaveWith
  simp only [ha]

theorem leaveWith_of_arity_error (G : Grammar) (ld : List EmptyLine)
    (items : List WithItem) (hc : Option String) (bd : List SimpleLine)
    (ann : TyExpr) (target : CExpr)
    (ha : annForStmt G hc = some ann)
    (hts : (items.filterMap fun i => i.asname) = [target])
    (he : typeDeclarationStatements (unpackTarget target) (unpackAnn ann) ld =
      Except.error ()) :
    leaveWith G ⟨ld, items, hc, bd⟩ = [Stmt.withS ⟨ld, items, hc, bd⟩] := by
  unfold leaveWith
  simp only [ha, hts, he]

theorem leaveWith_of_decls (G : Grammar) (ld : List EmptyLine)
    (items : List WithItem) (hc : Option String) (bd : List SimpleLine)
    (ann : TyExpr) (target : CExpr) (decls : List SimpleLine)
    (ha : annForStmt G hc = some ann)
    (hts : (items.filterMap fun i => i.asname) = [target])
    (hd : typeDeclarationStatements (unpackTarget target) (unpackAnn ann) ld =
      Except.ok decls) :
    leaveWith G ⟨ld, items, hc, bd⟩ =
      decls.map Stmt.simpleLine ++ [Stmt.withS ⟨[], items, none, bd⟩] := by
  unfold leaveWith
  simp only [ha, hts, hd]

end CTC

namespace CTC

theorem transformStmt_forS_eq (G : Grammar) (f : ForData) :
    transformStmt G (Stmt.forS f) =
      leaveFor G ⟨f.leadingLines, f.target, f.iter, f.headerComment,
        f.body.flatMap (leaveSimpleLine G)⟩ := rfl

theorem transformStmt_withS_eq (G : Grammar) (w : WithData) :
    transformStmt G (Stmt.withS w) =
      leaveWith G ⟨w.leadingLines, w.items, w.headerComment,
        w.body.flatMap (leaveSimpleLine G)⟩ := rfl

theorem transformStmt_stable (G : Grammar) (s : Stmt) :
    ∀ s' ∈ transformStmt G s, transformStmt G s' = [s'] := by
  intro s' hs'
  cases s with
  | simpleLine l =>
    simp only [transformStmt, List.mem_map] at hs'
    rcases hs' with ⟨l', hl', rfl⟩
    simp only [transformStmt]
    rw [leaveSimpleLine_stable G l l' hl']
    rfl
  | funcDef fd =>
    simp only [transformStmt, List.mem_singleton] at hs'
    subst hs'
    simp only [transformStmt, transformFuncDef_stable]
  | forS f =>
    rw [transformStmt_forS_eq] at hs'
    cases ha : annForStmt G f.headerComment with
    | none =>
      rw [leaveFor_of_ann_none G _ _ _ _ _ ha] at hs'
      simp only [List.mem_singleton] at hs'
      subst hs'
      rw [transformStmt_forS_eq]
      dsimp only
      rw [flatMap_leaveSimpleLine_stable, leaveFor_of_ann_none G _ _ _ _ _ ha]
    | some ann =>
      cases hd : typeDeclarationStatements (unpackTarget f.target)
          (unpackAnn ann) f.leadingLines with
      | error e =>
        obtain rfl : e = () := rfl
        rw [leaveFor_of_arity_error G _ _ _ _ _ ann ha hd] at hs'
        simp only [List.mem_singleton] at hs'
        subst hs'
        rw [transformStmt_forS_eq]
        dsimp only
        rw [flatMap_leaveSimpleLine_stable,
          leaveFor_of_arity_error G _ _ _ _ _ ann ha hd]
      | ok decls =>
        rw [leaveFor_of_decls G _ _ _ _ _ ann decls ha hd] at hs'
        rw [List.mem_append] at hs'
        rcases hs' with h | h
        · simp only [List.mem_map] at h
          rcases h with ⟨d, hdm, rfl⟩
          have hc := typeDeclarationStatements_comment_none _ _ _ _ hd d hdm
          simp only [transformStmt]
          rw [leaveSimpleLine_of_comment_none G d hc]
          rfl
        · simp only [List.mem_singleton] at h
          subst h
          rw [transformStmt_forS_eq]
          dsimp only
          rw [flatMap_leaveSimpleLine_stable,
            leaveFor_of_ann_none G _ _ _ _ _ (annForStmt_none G)]
  | withS w =>
    rw [transformStmt_withS_eq] at hs'
    cases ha : annForStmt G w.headerComment with
    | none =>
      rw [leaveWith_of_ann_none G _ _ _ _ ha] at hs'
      simp only [List.mem_singleton] at hs'
      subst hs'
      rw [transformStmt_withS_eq]
      dsimp only
      rw [flatMap_leaveSimpleLine_stable, leaveWith_of_ann_none G _ _ _ _ ha]
    | some ann =>
      cases hts : (w.items.filterMap fun i => i.asname) with
      | nil =>
        have hne : ∀ t, (w.items.filterMap fun i => i.asname) ≠ [t] := by
          rw [hts]; intro t h; cases h
        rw [leaveWith_of_targets G _ _ _ _ ann ha hne] at hs'
        simp only [List.mem_singleton] at hs'
        subst hs'
        rw [transformStmt_withS_eq]
        dsimp only
        rw [flatMap_leaveSimpleLine_stable,
          leaveWith_of_targets G _ _ _ _ ann ha hne]
      | cons t rest =>
        cases rest with
        | cons t' rest' =>
          have hne : ∀ u, (w.items.filterMap fun i => i.asname) ≠ [u] := by
            rw [hts]; intro u h; cases h
          rw [leaveWith_of_targets G _ _ _ _ ann ha hne] at hs'
          simp only [List.mem_singleton] at hs'
          subst hs'
          rw [transformStmt_withS_eq]
          dsimp only
          rw [flatMap_leaveSimpleLine_stable,
            leaveWith_of_targets G _ _ _ _ ann ha hne]
        | nil =>
          cases hd : typeDeclarationStatements (unpackTarget t)
              (unpackAnn ann) w.leadingLines with
          | error e =>
            obtain rfl : e = () := rfl
            rw [leaveWith_of_arity_error G _ _ _ _ ann t ha hts hd] at hs'
            simp only [List.mem_singleton] at hs'
            subst hs'
            rw [transformStmt_withS_eq]
            dsimp only
            rw [flatMap_leaveSimpleLine_stable,
              leaveWith_of_arity_error G _ _ _ _ ann t ha hts hd]
          | ok decls =>
            rw [leaveWith_of_decls G _ _ _ _ ann t decls ha hts hd] at hs'
            rw [List.mem_append] at hs'
            rcases hs' with h | h
            · simp only [List.mem_map] at h
              rcases h with ⟨d, hdm, rfl⟩
              have hc := typeDeclarationStatements_comment_none _ _ _ _ hd d hdm
              simp only [transformStmt]
              rw [leaveSimpleLine_of_comment_none G d hc]
              rfl
            · simp only [List.mem_singleton] at h
              subst h
              rw [transformStmt_withS_eq]
              dsimp only
              rw [flatMap_leaveSimpleLine_stable,
                leaveWith_of_ann_none G _ _ _ _ (annForStmt_none G)]

end CTC

namespace CTC

theorem transformModule_stable (G : Grammar) (m : List Stmt) :
    ∀ s' ∈ transformModule G m, transformStmt G s' = [s'] := by
  intro s' hs'
  unfold transformModule at hs'
  simp only [List.mem_flatMap] at hs'
  rcases hs' with ⟨s, _, hs'⟩
  exact transformStmt_stable G s s' hs'

end CTC

namespace RoundTrip

/-- C1: rendering the tree produced by parsing a text yields that text
exactly, byte for byte, for module inputs (unconditionally), and for
single-statement and expression inputs whenever the parse entry point
accepts them (it fails with a syntax error otherwise). -/
theorem c1_render_parse_roundtrip :
    (∀ text : List Char, renderModule (parseModule text) = text) ∧
    (∀ (text : List Char) (l : Line), parseStatement text = some l →
      renderLine l = text) ∧
    (∀ (text : List Char) (l : Line), parseExpression text = some l →
      renderLine l = text) :=
  ⟨renderModule_parseModule, renderLine_parseStatement,
    renderLine_parseExpression⟩

/-- Witness for C1: the round trip evaluated at concrete module,
statement, and expression texts. -/
theorem c1_render_parse_roundtrip_witness :
    renderModule (parseModule ['a', '=', '1', '\n', 'b', '\n']) =
        ['a', '=', '1', '\n', 'b', '\n'] ∧
    renderLine ⟨['x'], true⟩ = ['x', '\n'] ∧
    renderLine ⟨['y'], false⟩ = ['y'] :=
  ⟨c1_render_parse_roundtrip.1 ['a', '=', '1', '\n', 'b', '\n'],
   c1_render_parse_roundtrip.2.1 ['x', '\n'] ⟨['x'], true⟩ rfl,
   c1_render_parse_roundtrip.2.2 ['y'] ⟨['y'], false⟩ rfl⟩

end RoundTrip

namespace NodeModel

/-- C9: constructing a parameter collection fails immediately at
construction time with the descriptive error naming the violated
invariant whenever a plain positional parameter carries a default value
or a defaulted positional parameter lacks one, and the corresponding
valid constructions succeed. -/
theorem c9_parameter_validation :
    (∀ ps ds : List Param, (∃ p ∈ ps, p.default.isSome) →
      Parameters.construct ps ds =
        Except.error "Cannot have defaults for params") ∧
    (∀ ps ds : List Param, (∀ p ∈ ps, p.default = none) →
      (∃ p ∈ ds, p.default = none) →
      Parameters.construct ps ds =
        Except.error "Must have defaults for default_params") ∧
    (∀ ps ds : List Param, (∀ p ∈ ps, p.default = none) →
      (∀ p ∈ ds, p.default.isSome) →
      Parameters.construct ps ds = Except.ok ⟨ps, ds⟩) := by
  refine ⟨?_, ?_, ?_⟩
  · intro ps ds h
    unfold Parameters.construct validateParameters
    rw [if_pos (List.any_eq_true.mpr (by simpa using h))]
  · intro ps ds hok h
    unfold Parameters.construct validateParameters
    rw [if_neg, if_pos]
    · exact List.any_eq_true.mpr (by
        obtain ⟨p, hp, hd⟩ := h
        exact ⟨p, hp, by simp [hd]⟩)
    · simp only [List.any_eq_true, not_exists, not_and]
      intro p hp
      simp [hok p hp]
  · intro ps ds h1 h2
    unfold Parameters.construct validateParameters
    rw [if_neg, if_neg]
    · simp only [List.any_eq_true, not_exists, not_and]
      intro p hp
      obtain ⟨v, hv⟩ := Option.isSome_iff_exists.mp (h2 p hp)
      simp [hv]
    · simp only [List.any_eq_true, not_exists, not_and]
      intro p hp
      simp [h1 p hp]

/-- Witness for C9: a defaulted plain parameter is rejected, a defaulted
positional parameter missing its default is rejected, and the valid
collection is accepted. -/
theorem c9_parameter_validation_witness :
    Parameters.construct [⟨"a", some "1", ""⟩] [] =
        Except.error "Cannot have defaults for params" ∧
    Parameters.construct [⟨"a", none, ""⟩] [⟨"b", none, ""⟩] =
        Except.error "Must have defaults for default_params" ∧
    Parameters.construct [⟨"a", none, ""⟩] [⟨"b", some "1", ""⟩] =
        Except.ok ⟨[⟨"a", none, ""⟩], [⟨"b", some "1", ""⟩]⟩ :=
  ⟨c9_parameter_validation.1 [⟨"a", some "1", ""⟩] []
      ⟨⟨"a", some "1", ""⟩, by simp, rfl⟩,
   c9_parameter_validation.2.1 [⟨"a", none, ""⟩] [⟨"b", none, ""⟩]
      (by intro p hp; simp at hp; simp [hp])
      ⟨⟨"b", none, ""⟩, by simp, rfl⟩,
   c9_parameter_validation.2.2 [⟨"a", none, ""⟩] [⟨"b", some "1", ""⟩]
      (by intro p hp; simp at hp; simp [hp])
      (by intro p hp; simp at hp; simp [hp])⟩

end NodeModel

namespace CTC

/-- C6: every raw annotation text the transform emits — in type
declarations, parameter annotations, and return annotations, all of which
go through `_convert_annotation` — is emitted as a bare name exactly when
it belongs to the fixed builtins list, and as a quoted string literal
otherwise. -/
theorem c6_builtin_quoting :
    (∀ raw, isBuiltin raw = true → convertAnn raw = ⟨CExpr.name raw⟩) ∧
    (∀ raw, isBuiltin raw = false →
      convertAnn raw = ⟨CExpr.simpleString ("\"" ++ raw ++ "\"")⟩) ∧
    (∀ raw, isBuiltin raw = builtinNames.contains raw) ∧
    (∀ binding raw, typeDeclaration binding raw =
      Small.annAssign binding (convertAnn raw) none false) ∧
    (∀ (info : FunctionTypeInfo) (p : Param) (raw : String), p.ann = none →
      lookupArg info.arguments p.name = some raw →
      annotateParam info p = ⟨p.star, p.name, some (convertAnn raw), p.comment⟩) := by
  refine ⟨?_, ?_, fun _ => rfl, fun _ _ => rfl, ?_⟩
  · intro raw h
    unfold convertAnn
    rw [if_pos h]
  · intro raw h
    unfold convertAnn
    rw [if_neg (by simp [h])]
  · intro info p raw hann hlook
    unfold annotateParam
    rw [hann]
    simp only [hlook]

/-- Witness for C6: a builtin stays a bare name, a project name is
quoted. -/
theorem c6_builtin_quoting_witness :
    convertAnn "int" = ⟨CExpr.name "int"⟩ ∧
    convertAnn "MyClass" = ⟨CExpr.simpleString "\"MyClass\""⟩ ∧
    annotateParam ⟨[("x", some "int")], none⟩ ⟨"", "x", none, none⟩ =
      ⟨"", "x", some (convertAnn "int"), none⟩ :=
  ⟨c6_builtin_quoting.1 "int" rfl,
   c6_builtin_quoting.2.1 "MyClass" rfl,
   c6_builtin_quoting.2.2.2.2 ⟨[("x", some "int")], none⟩ ⟨"", "x", none, none⟩
     "int" rfl rfl⟩

/-- C7: a trailing comment whose payload the mini-grammar fails to decode
is treated identically to an absent annotation: the decode result is
`none` in both cases and the enclosing statement — simple line, `For`
header, or `With` header — is returned byte-for-byte unchanged, its
comment included; the transform is a total function, so the failure is
never fatal. -/
theorem c7_decode_failure_nonfatal :
    (∀ G : Grammar, annForStmt G none = none) ∧
    (∀ (G : Grammar) (line : SimpleLine), annForStmt G line.comment = none →
      leaveSimpleLine G line = [line]) ∧
    (∀ (G : Grammar) (ld : List EmptyLine) (tg it : CExpr) (hc : Option String)
      (bd : List SimpleLine), annForStmt G hc = none →
      leaveFor G ⟨ld, tg, it, hc, bd⟩ = [Stmt.forS ⟨ld, tg, it, hc, bd⟩]) ∧
    (∀ (G : Grammar) (ld : List EmptyLine) (items : List WithItem)
      (hc : Option String) (bd : List SimpleLine), annForStmt G hc = none →
      leaveWith G ⟨ld, items, hc, bd⟩ = [Stmt.withS ⟨ld, items, hc, bd⟩]) :=
  ⟨annForStmt_none, leaveSimpleLine_of_ann_none,
   fun G ld tg it hc bd h => leaveFor_of_ann_none G ld tg it hc bd h,
   fun G ld items hc bd h => leaveWith_of_ann_none G ld items hc bd h⟩

/-- Witness for C7: a malformed payload (`???`) decodes to `none` under
the concrete grammar and the assignment line is left unchanged, comment
included. -/
theorem c7_decode_failure_nonfatal_witness :
    leaveSimpleLine demoGrammar
        ⟨[], [Small.assign ⟨[CExpr.name "x"], CExpr.num "1", false⟩],
          some "# type: ???"⟩ =
      [⟨[], [Small.assign ⟨[CExpr.name "x"], CExpr.num "1", false⟩],
        some "# type: ???"⟩] :=
  c7_decode_failure_nonfatal.2.1 demoGrammar
    ⟨[], [Small.assign ⟨[CExpr.name "x"], CExpr.num "1", false⟩],
      some "# type: ???"⟩ (by rfl)

end CTC

namespace CTC

/-- C3: the shape-zip raises the arity error exactly on unequal-length
sequence pairs and on sequence-versus-leaf pairs (either direction); the
error makes `convert_Assign` report failure, which leaves the whole
statement untouched, comment included; and the traversal processes each
sibling statement independently, so the error never escapes the statement
boundary. -/
theorem c3_arity_error_local :
    (∀ (bs : List UBind) (anns : List UAnn), bs.length ≠ anns.length →
      annotatedBindings (UBind.tuple bs) (UAnn.tuple anns) =
        Except.error ()) ∧
    (∀ (e : CExpr) (anns : List UAnn),
      annotatedBindings (UBind.leaf e) (UAnn.tuple anns) = Except.error ()) ∧
    (∀ (bs : List UBind) (s : String),
      annotatedBindings (UBind.tuple bs) (UAnn.leaf s) = Except.error ()) ∧
    (∀ (G : Grammar) (line : SimpleLine) (a : AssignData) (ann : TyExpr),
      line.body.getLast? = some (Small.assign a) →
      annForStmt G line.comment = some ann →
      convertAssign a ann = ConvertAssignResult.failed →
      leaveSimpleLine G line = [line]) ∧
    (∀ (G : Grammar) (pre post : List Stmt) (s : Stmt),
      transformModule G (pre ++ s :: post) =
        transformModule G pre ++ transformStmt G s ++ transformModule G post) := by
  refine ⟨?_, fun _ _ => rfl, fun _ _ => rfl, ?_, ?_⟩
  · intro bs anns h
    unfold annotatedBindings
    rw [if_neg h]
  · intro G line a ann hlast hann hfail
    unfold leaveSimpleLine
    simp only [hlast, hann, hfail]
  · intro G pre post s
    unfold transformModule
    simp [List.flatMap_append, List.flatMap_cons, List.append_assoc]

/-- Witness for C3: a two-element type tuple against a plain name target
raises the arity error, and the statement `x = y = (1, 2)` with comment
`int, int` is left untouched while its siblings are still processed. -/
theorem c3_arity_error_local_witness :
    annotatedBindings (UBind.tuple [UBind.leaf (CExpr.name "x")])
        (UAnn.tuple []) = Except.error () ∧
    leaveSimpleLine demoGrammar
        ⟨[], [Small.assign ⟨[CExpr.name "x", CExpr.name "y"],
          CExpr.tup [CExpr.num "1", CExpr.num "2"], false⟩],
          some "# type: int, int"⟩ =
      [⟨[], [Small.assign ⟨[CExpr.name "x", CExpr.name "y"],
        CExpr.tup [CExpr.num "1", CExpr.num "2"], false⟩],
        some "# type: int, int"⟩] ∧
    transformModule demoGrammar
        ([Stmt.simpleLine ⟨[], [Small.passStmt false], none⟩] ++
          Stmt.simpleLine ⟨[], [Small.passStmt false], none⟩ ::
            [Stmt.simpleLine ⟨[], [Small.passStmt false], none⟩]) =
      transformModule demoGrammar [Stmt.simpleLine ⟨[], [Small.passStmt false], none⟩] ++
        transformStmt demoGrammar (Stmt.simpleLine ⟨[], [Small.passStmt false], none⟩) ++
        transformModule demoGrammar [Stmt.simpleLine ⟨[], [Small.passStmt false], none⟩] :=
  ⟨c3_arity_error_local.1 [UBind.leaf (CExpr.name "x")] [] (by decide),
   c3_arity_error_local.2.2.2.1 demoGrammar
     ⟨[], [Small.assign ⟨[CExpr.name "x", CExpr.name "y"],
       CExpr.tup [CExpr.num "1", CExpr.num "2"], false⟩],
       some "# type: int, int"⟩
     ⟨[CExpr.name "x", CExpr.name "y"],
       CExpr.tup [CExpr.num "1", CExpr.num "2"], false⟩
     (TyExpr.tup [TyExpr.atom "int", TyExpr.atom "int"]) rfl (by rfl) (by rfl),
   c3_arity_error_local.2.2.2.2 demoGrammar
     [Stmt.simpleLine ⟨[], [Small.passStmt false], none⟩]
     [Stmt.simpleLine ⟨[], [Small.passStmt false], none⟩]
     (Stmt.simpleLine ⟨[], [Small.passStmt false], none⟩)⟩

/-- C10: a `With` statement whose items carry zero or several `as`
bindings is not rewritten even when its header type comment decodes: no
declarations are prepended and the comment is kept; its body statements
are still traversed as for every compound statement. -/
theorem c10_with_multi_asname (G : Grammar) (w : WithData) (ann : TyExpr)
    (hdecode : annForStmt G w.headerComment = some ann)
    (hn : (w.items.filterMap fun i => i.asname).length ≠ 1) :
    transformStmt G (Stmt.withS w) =
      [Stmt.withS ⟨w.leadingLines, w.items, w.headerComment,
        w.body.flatMap (leaveSimpleLine G)⟩] := by
  rw [transformStmt_withS_eq]
  apply leaveWith_of_targets G _ _ _ _ ann hdecode
  intro t ht
  rw [ht] at hn
  exact hn rfl

/-- Witness for C10: a `With` with two `as` bindings and the decodable
comment `# type: int` is left unrewritten, comment intact. -/
theorem c10_with_multi_asname_witness :
    transformStmt demoGrammar (Stmt.withS ⟨[],
        [⟨CExpr.name "a", some (CExpr.name "x")⟩,
         ⟨CExpr.name "b", some (CExpr.name "y")⟩],
        some "# type: int", []⟩) =
      [Stmt.withS ⟨[],
        [⟨CExpr.name "a", some (CExpr.name "x")⟩,
         ⟨CExpr.name "b", some (CExpr.name "y")⟩],
        some "# type: int", []⟩] :=
  c10_with_multi_asname demoGrammar
    ⟨[], [⟨CExpr.name "a", some (CExpr.name "x")⟩,
      ⟨CExpr.name "b", some (CExpr.name "y")⟩], some "# type: int", []⟩
    (TyExpr.atom "int") (by rfl) (by decide)

/-- C8: the transform is idempotent at the tree level — a second
application to the output of the first produces the identical module
tree, hence the identical rendered text (rendering is a function of the
tree). -/
theorem c8_idempotent (G : Grammar) (m : List Stmt) :
    transformModule G (transformModule G m) = transformModule G m := by
  unfold transformModule
  exact flatMap_of_stable _ _ (transformModule_stable G m)

end CTC

namespace CTC

/-- C2 counterexample: the assignment `(x,) = (1,)  # type: (int,)` is
single-target but tuple-shaped with one leaf binding; the claim mandates
one standalone declaration followed by the original assignment, but
`convert_Assign` takes the single-`AnnAssign` path, keeping the value on
the annotated name itself. -/
theorem c2_counterexample :
    convertAssign ⟨[CExpr.tup [CExpr.name "x"]], CExpr.tup [CExpr.num "1"],
        false⟩ (TyExpr.tup [TyExpr.atom "int"]) =
      ConvertAssignResult.single
        (Small.annAssign (CExpr.name "x") ⟨CExpr.name "int"⟩
          (some (CExpr.tup [CExpr.num "1"])) false) ∧
    ConvertAssignResult.single
        (Small.annAssign (CExpr.name "x") ⟨CExpr.name "int"⟩
          (some (CExpr.tup [CExpr.num "1"])) false) ≠
      ConvertAssignResult.multiple
        [typeDeclaration (CExpr.name "x") "int",
         Small.assign ⟨[CExpr.tup [CExpr.name "x"]], CExpr.tup [CExpr.num "1"],
           false⟩] :=
  ⟨by rfl, fun h => ConvertAssignResult.noConfusion h⟩

/-- C2 (amended): an assignment whose target-annotation zip succeeds
becomes a single `AnnAssign` retaining the value and semicolon exactly
when there is one target whose zip yields exactly one leaf pair — which
includes one-element tuple targets; in every other successful case it
becomes one no-value declaration per leaf pair, in target order, followed
by the untouched original assignment, and at the statement level the
trailing type comment is removed from the rewritten line(s). -/
theorem c2_amended (G : Grammar) (a : AssignData) (ann : TyExpr)
    (ats : List (List (CExpr × String)))
    (h : a.targets.mapM
      (fun t => annotatedBindings (unpackTarget t) (unpackAnn ann)) =
        Except.ok ats) :
    (∀ binding raw, ats = [[(binding, raw)]] →
      convertAssign a ann = ConvertAssignResult.single
        (Small.annAssign binding (convertAnn raw) (some a.value)
          a.semicolon)) ∧
    ((∀ binding raw, ats ≠ [[(binding, raw)]]) →
      convertAssign a ann = ConvertAssignResult.multiple
        ((ats.flatten.map fun p => typeDeclaration p.1 p.2) ++
          [Small.assign a])) ∧
    (∀ (leading : List EmptyLine) (cmt : Option String) (s1 : Small),
      annForStmt G cmt = some ann →
      convertAssign a ann = ConvertAssignResult.single s1 →
      leaveSimpleLine G ⟨leading, [Small.assign a], cmt⟩ =
        [⟨leading, [s1], none⟩]) ∧
    (∀ (leading : List EmptyLine) (cmt : Option String) (c : Small)
      (cs : List Small),
      annForStmt G cmt = some ann →
      convertAssign a ann = ConvertAssignResult.multiple (c :: cs) →
      leaveSimpleLine G ⟨leading, [Small.assign a], cmt⟩ =
        ⟨leading, [c], none⟩ :: cs.map fun s => ⟨[], [s], none⟩) := by
  refine ⟨?_, ?_, ?_, ?_⟩
  · intro binding raw hats
    subst hats
    unfold convertAssign
    rw [h]
  · intro hne
    unfold convertAssign
    rw [h]
    cases ats with
    | nil => rfl
    | cons g rest =>
      cases g with
      | nil =>
        cases rest with
        | nil => rfl
        | cons g2 r2 => rfl
      | cons p ps =>
        cases ps with
        | nil =>
          cases rest with
          | nil => exact absurd rfl (hne p.1 p.2)
          | cons g2 r2 => rfl
        | cons q qs =>
          cases rest with
          | nil => rfl
          | cons g2 r2 => rfl
  · intro leading cmt s1 hann hc
    unfold leaveSimpleLine
    simp only [List.getLast?_singleton, hann, hc]
    rfl
  · intro leading cmt c cs hann hc
    unfold leaveSimpleLine
    simp only [List.getLast?_singleton, hann, hc]
    rfl

/-- Witness for C2 (amended): `x = 1  # type: int` becomes the single
`x: int = 1` with the comment stripped, and
`x, y = 1, 2  # type: int, str` becomes two declarations followed by the
bare assignment. -/
theorem c2_amended_witness :
    convertAssign ⟨[CExpr.name "x"], CExpr.num "1", false⟩
        (TyExpr.atom "int") =
      ConvertAssignResult.single
        (Small.annAssign (CExpr.name "x") (convertAnn "int")
          (some (CExpr.num "1")) false) ∧
    convertAssign
        ⟨[CExpr.tup [CExpr.name "x", CExpr.name "y"]],
          CExpr.tup [CExpr.num "1", CExpr.num "2"], false⟩
        (TyExpr.tup [TyExpr.atom "int", TyExpr.atom "str"]) =
      ConvertAssignResult.multiple
        (([[(CExpr.name "x", "int"), (CExpr.name "y", "str")]].flatten.map
            fun p => typeDeclaration p.1 p.2) ++
          [Small.assign ⟨[CExpr.tup [CExpr.name "x", CExpr.name "y"]],
            CExpr.tup [CExpr.num "1", CExpr.num "2"], false⟩]) :=
  ⟨(c2_amended demoGrammar ⟨[CExpr.name "x"], CExpr.num "1", false⟩
      (TyExpr.atom "int") [[(CExpr.name "x", "int")]] (by rfl)).1
      (CExpr.name "x") "int" rfl,
   (c2_amended demoGrammar
      ⟨[CExpr.tup [CExpr.name "x", CExpr.name "y"]],
        CExpr.tup [CExpr.num "1", CExpr.num "2"], false⟩
      (TyExpr.tup [TyExpr.atom "int", TyExpr.atom "str"])
      [[(CExpr.name "x", "int"), (CExpr.name "y", "str")]] (by rfl)).2.1
      (by intro b r hx; cases hx)⟩

end CTC

namespace CTC

/-- C5 counterexample: a function of two parameters whose function-level
comment is the well-formed `(int) -> str` (one argument type, so neither
the ellipsis placeholder nor of matching length) gets the empty type
info: the return type `str` is discarded along with the argument types,
not honored as the claim states. -/
theorem c5_counterexample :
    FunctionTypeInfo.fromCst demoGrammar
        ⟨"f", [],
          ⟨[], [⟨"", "x", none, none⟩, ⟨"", "y", none, none⟩], none, [], none⟩,
          none, some "# type: (int) -> str",
          [⟨[], [Small.passStmt false], none⟩]⟩ =
      ⟨[], none⟩ ∧
    demoGrammar.parseFuncTy "(int) -> str" =
      some ⟨[TyExpr.atom "int"], TyExpr.atom "str"⟩ ∧
    (⟨[], none⟩ : FunctionTypeInfo).returns ≠ some "str" :=
  ⟨by rfl, by rfl, fun h => Option.noConfusion h⟩

/-- C5 (amended): when the function-level comment decodes but its
argument-type list is neither the single ellipsis placeholder nor equal
in length to the parameter count, the whole comment is discarded — the
argument types and also the return type — yielding the empty
`FunctionTypeInfo` (inline per-parameter comments included). -/
theorem c5_amended (G : Grammar) (fd : FuncDefData) (c : String) (fta : FuncTy)
    (h1 : astFuncTypeComment fd = some c)
    (h2 : G.parseFuncTy c = some fta)
    (h3 : fta.argtypes ≠ [TyExpr.ellipsisLit])
    (h4 : fta.argtypes.length ≠ (astArgs fd.ps).length) :
    FunctionTypeInfo.fromCst G fd = ⟨[], none⟩ := by
  cases hg : funcTypedParseFails fd with
  | true =>
    unfold FunctionTypeInfo.fromCst
    rw [hg, if_pos rfl]
  | false =>
    unfold FunctionTypeInfo.fromCst
    rw [hg, if_neg (by decide)]
    simp only [h1, h2]
    cases hats : fta.argtypes with
    | nil =>
      rw [hats] at h4
      rw [if_neg h4]
    | cons a as =>
      cases as with
      | cons a2 as2 =>
        rw [hats] at h4
        rw [if_neg h4]
      | nil =>
        cases a with
        | atom s =>
          rw [hats] at h4
          rw [if_neg h4]
        | tup l =>
          rw [hats] at h4
          rw [if_neg h4]
        | ellipsisLit => exact absurd hats h3

/-- Witness for C5 (amended): the counterexample function evaluated
through the amended statement. -/
theorem c5_amended_witness :
    FunctionTypeInfo.fromCst demoGrammar
        ⟨"f", [],
          ⟨[], [⟨"", "x", none, some "# type: bool"⟩, ⟨"", "y", none, none⟩],
            none, [], none⟩,
          none, some "# type: (int) -> str",
          [⟨[], [Small.passStmt false], none⟩]⟩ =
      ⟨[], none⟩ :=
  c5_amended demoGrammar
    ⟨"f", [],
      ⟨[], [⟨"", "x", none, some "# type: bool"⟩, ⟨"", "y", none, none⟩],
        none, [], none⟩,
      none, some "# type: (int) -> str",
      [⟨[], [Small.passStmt false], none⟩]⟩
    "(int) -> str" ⟨[TyExpr.atom "int"], TyExpr.atom "str"⟩
    (by rfl) (by rfl) (by intro h; cases h) (by decide)

end CTC

namespace CTC

theorem convertAssign_multiple_ne_nil (a : AssignData) (ann : TyExpr)
    (conv : List Small)
    (h : convertAssign a ann = ConvertAssignResult.multiple conv) :
    conv ≠ [] := by
  unfold convertAssign at h
  cases hm : a.targets.mapM
      (fun t => annotatedBindings (unpackTarget t) (unpackAnn ann)) with
  | error e => rw [hm] at h; exact absurd h (by simp)
  | ok ats =>
    rw [hm] at h
    cases ats with
    | nil =>
      simp only [ConvertAssignResult.multiple.injEq] at h
      rw [← h]
      simp
    | cons g rest =>
      cases g with
      | nil =>
        cases rest with
        | nil =>
          simp only [ConvertAssignResult.multiple.injEq] at h
          rw [← h]; simp
        | cons g2 r2 =>
          simp only [ConvertAssignResult.multiple.injEq] at h
          rw [← h]; simp
      | cons p ps =>
        cases ps with
        | nil =>
          cases rest with
          | nil => exact absurd h (by simp)
          | cons g2 r2 =>
            simp only [ConvertAssignResult.multiple.injEq] at h
            rw [← h]; simp
        | cons q qs =>
          cases rest with
          | nil =>
            simp only [ConvertAssignResult.multiple.injEq] at h
            rw [← h]; simp
          | cons g2 r2 =>
            simp only [ConvertAssignResult.multiple.injEq] at h
            rw [← h]; simp

end CTC

namespace CTC

/-- C4 counterexample: `def f() -> bool:  # type: () -> int` parses with
its function type comment (the header payload `() -> int` decodes to zero
argument types and return `int`, matching the zero parameters), so the
extracted info is non-empty; the return type `int` is never applied
because the explicit `-> bool` wins, yet the stripping of the consumed
header region removes the comment — an extracted-but-unapplied type
comment is absent from the output. -/
theorem c4_counterexample :
    "# type: () -> int" ∈ commentsOfModule
        [Stmt.funcDef ⟨"f", [], ⟨[], [], none, [], none⟩,
          some ⟨CExpr.name "bool"⟩, some "# type: () -> int",
          [⟨[], [Small.passStmt false], none⟩]⟩] ∧
    transformModule demoGrammar
        [Stmt.funcDef ⟨"f", [], ⟨[], [], none, [], none⟩,
          some ⟨CExpr.name "bool"⟩, some "# type: () -> int",
          [⟨[], [Small.passStmt false], none⟩]⟩] =
      [Stmt.funcDef ⟨"f", [], ⟨[], [], none, [], none⟩,
        some ⟨CExpr.name "bool"⟩, none,
        [⟨[], [Small.passStmt false], none⟩]⟩] ∧
    "# type: () -> int" ∉ commentsOfModule
        [Stmt.funcDef ⟨"f", [], ⟨[], [], none, [], none⟩,
          some ⟨CExpr.name "bool"⟩, none,
          [⟨[], [Small.passStmt false], none⟩]⟩] :=
  ⟨by simp [commentsOfModule, commentsOfStmt, commentsOfParams,
      commentsOfLine],
   by rfl,
   by simp [commentsOfModule, commentsOfStmt, commentsOfParams,
      commentsOfLine]⟩

/-- C4 (amended): for the statement-level rewrites the stripping
discipline holds — a successfully applied comment is stripped from every
output line and a failed application leaves the statement untouched,
comment included; but in the header region of a function from which any
type information was extracted, every type comment is stripped whether or
not it was applied: the leading lines lose all their type comments and
the header comment itself is deleted even when, as for an explicitly
annotated return, nothing of it was used (an existing return annotation
is never overridden by the comment). -/
theorem c4_amended :
    (∀ (G : Grammar) (line : SimpleLine) (a : AssignData) (ann : TyExpr),
      line.body.getLast? = some (Small.assign a) →
      annForStmt G line.comment = some ann →
      convertAssign a ann ≠ ConvertAssignResult.failed →
      ∀ l' ∈ leaveSimpleLine G line, l'.comment = none) ∧
    (∀ (G : Grammar) (line : SimpleLine) (a : AssignData) (ann : TyExpr),
      line.body.getLast? = some (Small.assign a) →
      annForStmt G line.comment = some ann →
      convertAssign a ann = ConvertAssignResult.failed →
      leaveSimpleLine G line = [line]) ∧
    (∀ (G : Grammar) (ld : List EmptyLine) (tg it : CExpr)
      (hc : Option String) (bd : List SimpleLine) (ann : TyExpr)
      (decls : List SimpleLine),
      annForStmt G hc = some ann →
      typeDeclarationStatements (unpackTarget tg) (unpackAnn ann) ld =
        Except.ok decls →
      leaveFor G ⟨ld, tg, it, hc, bd⟩ =
        decls.map Stmt.simpleLine ++ [Stmt.forS ⟨[], tg, it, none, bd⟩]) ∧
    (∀ (G : Grammar) (ld : List EmptyLine) (items : List WithItem)
      (hc : Option String) (bd : List SimpleLine) (ann : TyExpr)
      (target : CExpr) (decls : List SimpleLine),
      annForStmt G hc = some ann →
      (items.filterMap fun i => i.asname) = [target] →
      typeDeclarationStatements (unpackTarget target) (unpackAnn ann) ld =
        Except.ok decls →
      leaveWith G ⟨ld, items, hc, bd⟩ =
        decls.map Stmt.simpleLine ++ [Stmt.withS ⟨[], items, none, bd⟩]) ∧
    (∀ (G : Grammar) (fd : FuncDefData),
      (FunctionTypeInfo.fromCst G fd).isEmpty = false →
      (transformFuncDef G fd).leadingLines =
        stripLeadingTypeComments fd.leadingLines) ∧
    (∀ (G : Grammar) (fd : FuncDefData),
      (FunctionTypeInfo.fromCst G fd).isEmpty = false →
      isTypeComment? fd.headerComment = true →
      (transformFuncDef G fd).headerComment = none) ∧
    (∀ (G : Grammar) (fd : FuncDefData) (r : CAnn),
      fd.retAnn = some r →
      (transformFuncDef G fd).retAnn = some r) := by
  refine ⟨?_, ?_, ?_, ?_, ?_, ?_, ?_⟩
  · intro G line a ann hlast hann hfail l' hl'
    unfold leaveSimpleLine at hl'
    simp only [hlast, hann] at hl'
    cases hc : convertAssign a ann with
    | failed => exact absurd hc hfail
    | single conv =>
      rw [hc] at hl'
      simp only [List.mem_singleton] at hl'
      subst hl'
      rfl
    | multiple conv =>
      rw [hc] at hl'
      dsimp only at hl'
      cases hm : line.body.dropLast.map setSemiDefault ++ conv with
      | nil =>
        exact absurd (List.append_eq_nil.mp hm).2
          (convertAssign_multiple_ne_nil a ann conv hc)
      | cons first rest =>
        rw [hm] at hl'
        simp only [List.mem_cons, List.mem_map] at hl'
        rcases hl' with rfl | ⟨s, _, rfl⟩
        · rfl
        · rfl
  · intro G line a ann hlast hann hfail
    unfold leaveSimpleLine
    simp only [hlast, hann, hfail]
  · intro G ld tg it hc bd ann decls ha hd
    exact leaveFor_of_decls G ld tg it hc bd ann decls ha hd
  · intro G ld items hc bd ann target decls ha hts hd
    exact leaveWith_of_decls G ld items hc bd ann target decls ha hts hd
  · intro G fd h
    rw [transformFuncDef_of_nonempty G fd h]
  · intro G fd hE hic
    rw [transformFuncDef_of_nonempty G fd hE]
    dsimp only
    unfold stripFuncBodyComments
    dsimp only
    rw [hic, if_pos rfl]
  · intro G fd r hr
    cases hE : (FunctionTypeInfo.fromCst G fd).isEmpty with
    | true =>
      rw [transformFuncDef_of_empty G fd (isEmpty_shape _ hE)]
      exact hr
    | false =>
      rw [transformFuncDef_of_nonempty G fd hE]
      dsimp only
      rw [hr]

/-- Witness for C4 (amended): the For statement
`for x in xs:  # type: int` gets its declaration prepended and its header
comment stripped, and on `def f() -> bool:  # type: () -> int` the
extracted info is non-empty, the leading lines are type-comment-stripped,
the header comment is deleted, and the explicit return annotation is
kept. -/
theorem c4_amended_witness :
    leaveFor demoGrammar ⟨[], CExpr.name "x", CExpr.name "xs",
        some "# type: int", []⟩ =
      [Stmt.simpleLine ⟨[], [typeDeclaration (CExpr.name "x") "int"], none⟩,
       Stmt.forS ⟨[], CExpr.name "x", CExpr.name "xs", none, []⟩] ∧
    (transformFuncDef demoGrammar ⟨"f", [], ⟨[], [], none, [], none⟩,
        some ⟨CExpr.name "bool"⟩, some "# type: () -> int",
        [⟨[], [Small.passStmt false], none⟩]⟩).leadingLines =
      stripLeadingTypeComments [] ∧
    (transformFuncDef demoGrammar ⟨"f", [], ⟨[], [], none, [], none⟩,
        some ⟨CExpr.name "bool"⟩, some "# type: () -> int",
        [⟨[], [Small.passStmt false], none⟩]⟩).headerComment = none ∧
    (transformFuncDef demoGrammar ⟨"f", [], ⟨[], [], none, [], none⟩,
        some ⟨CExpr.name "bool"⟩, some "# type: () -> int",
        [⟨[], [Small.passStmt false], none⟩]⟩).retAnn =
      some ⟨CExpr.name "bool"⟩ :=
  ⟨c4_amended.2.2.1 demoGrammar [] (CExpr.name "x") (CExpr.name "xs")
      (some "# type: int") [] (TyExpr.atom "int")
      [⟨[], [typeDeclaration (CExpr.name "x") "int"], none⟩]
      (by rfl) (by rfl),
   c4_amended.2.2.2.2.1 demoGrammar
     ⟨"f", [], ⟨[], [], none, [], none⟩, some ⟨CExpr.name "bool"⟩,
       some "# type: () -> int", [⟨[], [Small.passStmt false], none⟩]⟩
     (by rfl),
   c4_amended.2.2.2.2.2.1 demoGrammar
     ⟨"f", [], ⟨[], [], none, [], none⟩, some ⟨CExpr.name "bool"⟩,
       some "# type: () -> int", [⟨[], [Small.passStmt false], none⟩]⟩
     (by rfl) (by rfl),
   c4_amended.2.2.2.2.2.2 demoGrammar
     ⟨"f", [], ⟨[], [], none, [], none⟩, some ⟨CExpr.name "bool"⟩,
       some "# type: () -> int", [⟨[], [Small.passStmt false], none⟩]⟩
     ⟨CExpr.name "bool"⟩ (by rfl)⟩

end CTC
